import Mathlib

/-!
Verification of the warranty-parser pipeline (src/main.py).

The core functions of the program are embedded shallowly:

* `map_support_level` — embeds `map_support_level` (main.py lines 31-60);
  Python strings are modelled as `String`, a missing/NaN cell as `none`,
  and `str.lower` as `lowerList` covering the ASCII and Cyrillic letters
  that occur in the program's string constants.
* `clean_snL` / `clean_sn` — embeds `clean_sn` (lines 77-90): `str.endswith`
  and slicing are modelled on the character list of the string.
* `extract_term` — embeds `df["Warranty"].str.extract(r"(\d+)Y")[0]`
  (line 74): the leftmost match of one-or-more decimal digits immediately
  followed by the character 'Y'.  A NaN result (null input or no match) is
  modelled as `none`; it renders as the empty cell in the output workbook.
* `parseDate`, `addYears`, `calc_end_date`, `format_start` — embed the date
  handling (lines 93-118).  `pd.to_datetime` is modelled on strings in the
  canonical `YYYY-MM-DD` format (the only format the pipeline itself
  produces); pandas `Timestamp` bounds are modelled exactly: midnight
  timestamps exist for dates 1677-09-22 through 2262-04-11, and
  `Timestamp + DateOffset(years=...)` raises (here: yields `none`, caught
  into `""`) outside that range.  `DateOffset(years=n)` keeps month and
  day, clamping the day to the length of the target month.
* `checkDuplicates` — embeds `check_duplicates` (lines 135-153) on row
  lists: `pd.concat` is `++` and `drop_duplicates(subset=["SN OY"])` is
  first-occurrence deduplication by the serial field.
* `runMergePhase` — embeds the target-file lifecycle of `main`
  (lines 379-425): delete the existing target file, write a fresh
  header-only (empty) table, then call `check_duplicates` against it.
* `generateAnalytics` and the distribution helpers — embed
  `generate_analytics` (lines 156-220).  `value_counts()` drops NaN
  entries and the percentages divide by `len(df)`; the descending-count
  sort applied by pandas is omitted because only the category sets,
  counts and percentage sums are at issue here (sorting permutes a list
  and does not change its sum).  `.round(1)` is modelled as
  `round1`; numpy rounds ties to even while Mathlib's `round` rounds
  ties up, but no statement below depends on the tie rule (both satisfy
  the half-unit error bound used).
-/

/-! ### Characters and strings -/

/-- Model of Python `str.lower` on a single character, covering ASCII
letters and the Cyrillic letters (А-Я and Ё) appearing in the program's
constants; every other character is left unchanged. -/
def lowerChar (c : Char) : Char :=
  if 0x41 ≤ c.toNat ∧ c.toNat ≤ 0x5A then Char.ofNat (c.toNat + 32)
  else if 0x410 ≤ c.toNat ∧ c.toNat ≤ 0x42F then Char.ofNat (c.toNat + 32)
  else if c.toNat = 0x401 then Char.ofNat 0x451
  else c

/-- Model of Python `str.lower` on a whole string (as a character list). -/
def lowerList (l : List Char) : List Char := l.map lowerChar

/-- Model of Python `pat in s` (substring containment). -/
def containsSub (pat : List Char) : List Char → Bool
  | [] => pat.isEmpty
  | c :: rest => pat.isPrefixOf (c :: rest) || containsSub pat rest

/-- Model of Python `s.endswith(suf)`. -/
def endsWithL (suf l : List Char) : Bool := suf.reverse.isPrefixOf l.reverse

/-! ### Support-tier mapping (`map_support_level`, main.py lines 31-60) -/

/-- Embedding of `map_support_level`.  A `none` argument models a NaN
cell (`pd.isna(warranty)`); the cascade of `if` tests follows the source
line by line on the lowercased string. -/
def map_support_level : Option String → String
  | none => "Не найдено"
  | some warranty =>
    let w := lowerList warranty.toList
    if containsSub "notfound".toList w then "Не найдено"
    else if containsSub "гарантия".toList w then "Гарантия"
    else if "base".toList.isPrefixOf w then
      if containsSub "невозврат".toList w then "Базовый+невозврат" else "Базовый"
    else if "extended".toList.isPrefixOf w then
      if containsSub "невозврат".toList w then "Расширенный+невозврат" else "Расширенный"
    else if "premium".toList.isPrefixOf w then
      if containsSub "невозврат".toList w then "Премиум+невозврат" else "Премиум"
    else "Не найдено"

/-- The closed set of 8 tier labels from the specification's enum. -/
def supportLabels : List String :=
  ["Не найдено", "Гарантия", "Базовый", "Базовый+невозврат",
   "Расширенный", "Расширенный+невозврат", "Премиум", "Премиум+невозврат"]

/-- Spec-side rule list, modelled from the spec's words: an ordered list of
(predicate, result) pairs evaluated top-to-bottom over the lowercased code
(spec §3 rules 2-6; rule 1, the null case, and rule 7, the fallback, live
in `specTier`).  Each result may itself consult the no-return substring,
per the "+NoReturn suffix variant" clauses. -/
def specRules : List ((List Char → Bool) × (List Char → String)) :=
  [ (fun w => containsSub "notfound".toList w, fun _ => "Не найдено"),
    (fun w => containsSub "гарантия".toList w, fun _ => "Гарантия"),
    (fun w => "base".toList.isPrefixOf w,
      fun w => if containsSub "невозврат".toList w then "Базовый+невозврат" else "Базовый"),
    (fun w => "extended".toList.isPrefixOf w,
      fun w => if containsSub "невозврат".toList w then "Расширенный+невозврат" else "Расширенный"),
    (fun w => "premium".toList.isPrefixOf w,
      fun w => if containsSub "невозврат".toList w then "Премиум+невозврат" else "Премиум") ]

/-- First-match-wins evaluation of a rule list, with the spec's rule 7
("otherwise → NotFound") as the fallback. -/
def applyRules : List ((List Char → Bool) × (List Char → String)) → List Char → String
  | [], _ => "Не найдено"
  | (p, f) :: rest, w => if p w then f w else applyRules rest w

/-- Spec-side tier derivation, modelled from the spec's 7-rule precedence
list (spec §3): null → NotFound, then the rule cascade on the lowercased
string, first match wins. -/
def specTier : Option String → String
  | none => "Не найдено"
  | some s => applyRules specRules (lowerList s.toList)

/-- The `support_colors` table of `colorize_excel` (main.py lines 289-298),
as an association list from tier label to fill color. -/
def support_colors : List (String × String) :=
  [ ("Базовый", "ADD8E6"),
    ("Базовый+невозврат", "87CEEB"),
    ("Гарантия", "90EE90"),
    ("Премиум", "FFFF99"),
    ("Премиум+невозврат", "FFA500"),
    ("Расширенный", "DDA0DD"),
    ("Расширенный+невозврат", "FF6347"),
    ("Не найдено", "D3D3D3") ]

/-! ### Serial cleaning (`clean_sn`, main.py lines 77-90) -/

/-- Embedding of `clean_sn` on the character list of the stringified
serial: if the string ends with the literal suffix ".0", drop the last
two characters (`s[:-2]`), else return it unchanged. -/
def clean_snL (l : List Char) : List Char :=
  if endsWithL ['.', '0'] l then l.take (l.length - 2) else l

/-- `clean_sn` on `String` (the Python function applied to an input that
is already a string, so `str(sn)` is the identity). -/
def clean_sn (s : String) : String := String.mk (clean_snL s.toList)

/-! ### Term extraction (`str.extract(r"(\d+)Y")`, main.py line 74) -/

/-- One attempt of the regex `(\d+)Y` anchored at the current position:
take the maximal run of decimal digits here; the match succeeds exactly
when that run is non-empty and immediately followed by 'Y'.  (Backtracking
into a shorter digit run can never help, because the character after a
shorter run is a digit and hence not 'Y'.) -/
def tryTermAt (l : List Char) : Option (List Char) :=
  let ds := l.takeWhile Char.isDigit
  if ds.isEmpty then none
  else if (l.drop ds.length).head? = some 'Y' then some ds else none

/-- Leftmost-match scan of `(\d+)Y` over the character list, as
`re.search` does: try each start position left to right. -/
def extractTermL : List Char → Option (List Char)
  | [] => none
  | c :: rest =>
    match tryTermAt (c :: rest) with
    | some ds => some ds
    | none => extractTermL rest

/-- Embedding of `df["Warranty"].str.extract(r"(\d+)Y")[0]` for one cell:
`none` models a NaN result (null input, or no match), which the pipeline
renders as an empty cell. -/
def extract_term : Option String → Option String
  | none => none
  | some s => (extractTermL s.toList).map String.mk

/-- The string shown in an output cell for a term value: NaN renders
empty. -/
def termCell (t : Option String) : String := t.getD ""

/-- The maximal digit run of `l` starting at position `i`. -/
def runAt (l : List Char) (i : Nat) : List Char :=
  (l.drop i).takeWhile Char.isDigit

/-- Spec-side predicate, modelled from the spec's words: position `i` of
`l` starts a (maximal) non-empty run of digits immediately followed by
the literal character 'Y'. -/
def isPatternAt (l : List Char) (i : Nat) : Bool :=
  !(runAt l i).isEmpty && ((l.drop i).drop (runAt l i).length).head? = some 'Y'

/-- Spec-side extraction, modelled from the spec's words: the first run
of digits immediately preceding 'Y' (scan positions left to right and
return the digit run at the first position where the pattern occurs);
`none` when no such pattern exists. -/
def specExtract (l : List Char) : Option (List Char) :=
  match (List.range l.length).find? (isPatternAt l) with
  | some i => some (runAt l i)
  | none => none

/-! ### Dates (`pd.to_datetime`, `DateOffset`, main.py lines 93-118) -/

/-- A calendar date. -/
structure Date where
  year : Nat
  month : Nat
  day : Nat
deriving DecidableEq

/-- Gregorian leap-year test. -/
def isLeap (y : Nat) : Bool := (y % 4 == 0 && y % 100 != 0) || y % 400 == 0

/-- Number of days of month `m` of year `y`. -/
def daysInMonth (y m : Nat) : Nat :=
  if m = 2 then (if isLeap y then 29 else 28)
  else if m = 4 ∨ m = 6 ∨ m = 9 ∨ m = 11 then 30
  else 31

/-- A well-formed calendar date. -/
def validDate (d : Date) : Bool :=
  1 ≤ d.month && d.month ≤ 12 && 1 ≤ d.day && d.day ≤ daysInMonth d.year d.month

/-- Lexicographic (chronological) order on dates. -/
def dateLe (a b : Date) : Bool :=
  a.year < b.year ||
  (a.year == b.year && (a.month < b.month ||
    (a.month == b.month && a.day ≤ b.day)))

/-- The range of dates whose midnight fits in a pandas `Timestamp`
(int64 nanoseconds): `Timestamp.min` is 1677-09-21 00:12, so the first
representable midnight is 1677-09-22; `Timestamp.max` is
2262-04-11 23:47, so the last representable midnight is 2262-04-11. -/
def inBounds (d : Date) : Bool :=
  dateLe ⟨1677, 9, 22⟩ d && dateLe d ⟨2262, 4, 11⟩

/-- Numeric value of a decimal digit character. -/
def dv (c : Char) : Nat := c.toNat - 48

/-- Model of `pd.to_datetime` on the canonical strings the pipeline
produces: a string parses exactly when it is `YYYY-MM-DD` with a valid
calendar date whose midnight is a representable `Timestamp`; anything
else (including the empty string) yields `none` (NaT under
`errors="coerce"`, a raised error otherwise — both modelled as `none`
where the surrounding code coerces or catches). -/
def parseDate (s : String) : Option Date :=
  match s.toList with
  | [y1, y2, y3, y4, '-', m1, m2, '-', d1, d2] =>
    if [y1, y2, y3, y4, m1, m2, d1, d2].all Char.isDigit then
      let d : Date :=
        ⟨dv y1 * 1000 + dv y2 * 100 + dv y3 * 10 + dv y4,
         dv m1 * 10 + dv m2, dv d1 * 10 + dv d2⟩
      if validDate d && inBounds d then some d else none
    else none
  | _ => none

/-- Model of `Timestamp + DateOffset(years=n)`: add `n` to the year,
keep the month, clamp the day to the length of the target month (pandas
rolls Feb 29 to Feb 28 in a non-leap target year). -/
def addYears (d : Date) (n : Nat) : Date :=
  ⟨d.year + n, d.month, min d.day (daysInMonth (d.year + n) d.month)⟩

/-- The decimal digit character for `n % 10`. -/
def digitChar (n : Nat) : Char := Char.ofNat (48 + n % 10)

/-- Model of `strftime("%Y-%m-%d")` for in-bounds dates (whose years
always have exactly four digits). -/
def formatDate (d : Date) : String :=
  String.mk
    [digitChar (d.year / 1000), digitChar (d.year / 100),
     digitChar (d.year / 10), digitChar d.year, '-',
     digitChar (d.month / 10), digitChar d.month, '-',
     digitChar (d.day / 10), digitChar d.day]

/-- Model of Python `int(...)` applied to a term cell: a NaN cell
(`none`) raises, a string of decimal digits parses, anything else
raises; both raising cases are `none` (the caller catches). -/
def parseTermNat : Option String → Option Nat
  | none => none
  | some s =>
    if !s.toList.isEmpty && s.toList.all Char.isDigit then
      some (s.toList.foldl (fun a c => a * 10 + dv c) 0)
    else none

/-- Embedding of `calc_end_date` (main.py lines 98-116): parse the
already-normalized start string and the term; on success add the years;
format the result, with any out-of-bounds timestamp arithmetic raising
into the `except` handler, i.e. producing `""`. -/
def calc_end_date (startStr : String) (term : Option String) : String :=
  match parseDate startStr, parseTermNat term with
  | some st, some y =>
    let e := addYears st y
    if inBounds e then formatDate e else ""
  | _, _ => ""

/-- Embedding of the start-date normalization (main.py lines 94-95):
`pd.to_datetime(..., errors="coerce")` then `strftime` then
`fillna("")` — a `none` input models a null cell. -/
def format_start (x : Option String) : String :=
  match x with
  | none => ""
  | some s =>
    match parseDate s with
    | none => ""
    | some d => formatDate d

/-! ### Canonical rows and the deduplicating merge
(`check_duplicates`, main.py lines 135-153) -/

/-- A canonical output row (the columns built in `format_data`,
main.py lines 122-131): Наименование, SN OY, Уровень поддержки, Срок,
Дата начала, Дата окончания.  The term cell is `Option String` because
the extraction leaves NaN when no `(\d+)Y` pattern matched. -/
structure Row where
  name : String
  serial : String
  tier : String
  term : Option String
  start : String
  stop : String
deriving DecidableEq

/-- First-occurrence deduplication by serial, keeping rows whose serial
was not seen before — the semantics of
`drop_duplicates(subset=["SN OY"])` with the default `keep="first"`. -/
def dedupBySerialAux (seen : List String) : List Row → List Row
  | [] => []
  | r :: rs =>
    if r.serial ∈ seen then dedupBySerialAux seen rs
    else r :: dedupBySerialAux (r.serial :: seen) rs

/-- Embedding of `combined_data.drop_duplicates(subset=["SN OY"])`. -/
def dedupBySerial (l : List Row) : List Row := dedupBySerialAux [] l

/-- Embedding of `check_duplicates` (main.py lines 135-153): `none`
models the `FileNotFoundError` branch (target file absent), `some ex`
models a successfully read existing table; `pd.concat` is `++`. -/
def checkDuplicates (existing : Option (List Row)) (new_data : List Row) : List Row :=
  match existing with
  | some ex => dedupBySerial (ex ++ new_data)
  | none => new_data

/-- Embedding of `os.remove(target_file)` in `main` (lines 380-383):
whatever the target file held, it is gone afterwards. -/
def deleteTarget (_ : Option (List Row)) : Option (List Row) := none

/-- Embedding of
`pd.DataFrame(columns=columns).to_excel(target_file, ...)` in `main`
(line 403): the target file now holds a header-only, zero-row table. -/
def writeHeaderOnly (_ : Option (List Row)) : Option (List Row) := some []

/-- Embedding of the target-file lifecycle of one run of `main`
(lines 379-425): delete any existing target, write the fresh header-only
file, and hand its contents to `check_duplicates` together with the
combined incoming batch. -/
def runMergePhase (prevTarget : Option (List Row)) (combined : List Row) : List Row :=
  checkDuplicates (writeHeaderOnly (deleteTarget prevTarget)) combined

/-! ### Analytics (`generate_analytics`, main.py lines 156-220) -/

/-- `count / len(df) * 100` over the rationals (ℚ division by zero is 0,
matching that no category row exists to divide when the table is
empty). -/
def pct (n cnt : Nat) : ℚ := (cnt : ℚ) / (n : ℚ) * 100

/-- Floor of a rational, written out computably (`⌊q⌋ = q.num / q.den`,
integer division). -/
def floorQ (x : ℚ) : ℤ := x.num / (x.den : ℤ)

/-- Round-to-nearest of a rational, written out computably. -/
def roundQ (x : ℚ) : ℤ := floorQ (x + 1 / 2)

/-- `.round(1)`: scale by ten, round to an integer, scale back. -/
def round1 (x : ℚ) : ℚ := ((roundQ (10 * x) : ℤ) : ℚ) / 10

/-- One distribution sheet built from `value_counts().reset_index()` plus
the percent column: for each distinct observed value, its count and
`round1` of its percentage of all `n` table rows.  (`value_counts` drops
NaN entries, so the caller passes only the non-NaN values; pandas also
sorts by descending count, which permutes these rows and is irrelevant
to the sums studied here.) -/
def distRows {α : Type} [DecidableEq α] (n : Nat) (vals : List α) : List (α × Nat × ℚ) :=
  vals.dedup.map (fun v => (v, vals.count v, round1 (pct n (vals.count v))))

/-- Sum of the percent column of a distribution sheet. -/
def distPctSum {α : Type} [DecidableEq α] (d : List (α × Nat × ℚ)) : ℚ :=
  (d.map (fun t => t.2.2)).sum

/-- The tier column (`df["Уровень поддержки"]`): never NaN. -/
def tierVals (rows : List Row) : List String := rows.map Row.tier

/-- The non-NaN entries of the term column (`df["Срок"]`), the values
`value_counts` actually counts. -/
def termVals (rows : List Row) : List String := rows.filterMap Row.term

/-- The end year of a row: `pd.to_datetime(df["Дата окончания"]).dt.year`
with NaT (empty cell) giving NaN, i.e. `none`. -/
def endYear (r : Row) : Option Nat := (parseDate r.stop).map Date.year

/-- The non-NaN entries of the end-year column. -/
def yearVals (rows : List Row) : List Nat := rows.filterMap endYear

/-- The claim's property for one distribution: the rounded percentages
sum to 100 up to rounding error, i.e. within half a rounding unit
(1/20) per category row. -/
def pctsSumTo100 {α : Type} [DecidableEq α] (n : Nat) (vals : List α) : Prop :=
  |distPctSum (distRows n vals) - 100| ≤ (vals.dedup.length : ℚ) / 20

/-- Lexicographic minimum of a list of strings
(pandas `min()` on a string column), `none` on an empty list (NaN). -/
def minStr : List String → Option String
  | [] => none
  | s :: rest =>
    match minStr rest with
    | none => some s
    | some t => some (if s < t then s else t)

/-- Lexicographic maximum, `none` on an empty list. -/
def maxStr : List String → Option String
  | [] => none
  | s :: rest =>
    match maxStr rest with
    | none => some s
    | some t => some (if t < s then s else t)

/-- The analytics output (`generate_analytics`'s four sheets, with the
"Общая статистика" sheet flattened into its five values).  `none`
models a NaN value. -/
structure Analytics where
  totalRecords : Nat
  uniqueSN : Nat
  meanTerm : Option ℚ
  minStart : Option String
  maxEnd : Option String
  tierStats : List (String × Nat × ℚ)
  termStats : List (String × Nat × ℚ)
  yearStats : List (Nat × Nat × ℚ)
deriving DecidableEq

/-- Model of `float(s)` for a term cell's string (the term strings the
pipeline produces are digit runs; anything else raises). -/
def floatOfTermStr (s : String) : Except String ℚ :=
  if !s.toList.isEmpty && s.toList.all Char.isDigit then
    Except.ok ((s.toList.foldl (fun a c => a * 10 + dv c) 0 : Nat) : ℚ)
  else Except.error "could not convert string to float"

/-- Embedding of `generate_analytics` (main.py lines 156-220).  The one
genuinely raising step is `df["Срок"].astype(float)` on a non-numeric
term string, hence the `Except`; NaN term cells convert to NaN floats,
which `mean()` skips (`skipna=True`), and the mean of no numbers is NaN
(`none`), on which `.round(1)` is again NaN. -/
def generateAnalytics (rows : List Row) : Except String Analytics := do
  let termFloats ← rows.mapM (fun r =>
    match r.term with
    | none => Except.ok (none : Option ℚ)
    | some s => (floatOfTermStr s).map some)
  let nums := termFloats.filterMap id
  Except.ok
    { totalRecords := rows.length
      uniqueSN := (rows.map Row.serial).dedup.length
      meanTerm :=
        if nums.isEmpty then none
        else some (round1 (nums.sum / (nums.length : ℚ)))
      minStart := minStr (rows.map Row.start)
      maxEnd := maxStr (rows.map Row.stop)
      tierStats := distRows rows.length (tierVals rows)
      termStats := distRows rows.length (termVals rows)
      yearStats := distRows rows.length (yearVals rows) }

/-! ### Concrete rows used by the claim instances -/

/-- Two distinct rows sharing the serial "1": a table with an internal
duplicate serial. -/
def c1RowA : Row := ⟨"a", "1", "Базовый", some "1", "2023-01-01", "2024-01-01"⟩

/-- Second row with the same serial as `c1RowA` but different content. -/
def c1RowB : Row := ⟨"b", "1", "Премиум", some "5", "2023-02-01", "2028-02-01"⟩

/-- A row persisted by a previous run. -/
def c3OldRow : Row := ⟨"old", "77", "Базовый", some "1", "2020-01-01", "2021-01-01"⟩

/-- An incoming row of the current run with the same serial as
`c3OldRow` but different content. -/
def c3NewRow : Row := ⟨"new", "77", "Премиум", some "5", "2023-01-01", "2028-01-01"⟩

/-- A canonical row with a term and a parseable coverage end. -/
def c8Row : Row := ⟨"w", "9", "Базовый", some "1", "2023-01-01", "2024-01-01"⟩

/-- A canonical row with a missing term (NaN) and an empty coverage
end, as the pipeline produces for an unmatched warranty code. -/
def c8RowM : Row := ⟨"m", "10", "Не найдено", none, "", ""⟩

/-! ### Lemmas about the deduplicating merge -/

theorem dedupAux_sublist (seen : List String) (l : List Row) :
    List.Sublist (dedupBySerialAux seen l) l := by
  induction l generalizing seen with
  | nil => exact List.Sublist.refl []
  | cons r rs ih =>
    unfold dedupBySerialAux
    by_cases h : r.serial ∈ seen
    · simp only [h, if_pos]
      exact (ih seen).trans (List.sublist_cons_self r rs)
    · simp only [h, if_neg, not_false_iff]
      exact (ih (r.serial :: seen)).cons₂ r

theorem dedupAux_not_seen (seen : List String) (l : List Row) :
    ∀ r ∈ dedupBySerialAux seen l, r.serial ∉ seen := by
  induction l generalizing seen with
  | nil => intro r hr; cases hr
  | cons r rs ih =>
    unfold dedupBySerialAux
    by_cases h : r.serial ∈ seen
    · simp only [h, if_pos]
      exact ih seen
    · simp only [h, if_neg, not_false_iff]
      intro x hx
      rcases List.mem_cons.mp hx with rfl | hx'
      · exact h
      · intro hmem
        exact ih (r.serial :: seen) x hx' (List.mem_cons_of_mem _ hmem)

theorem dedupAux_serials_nodup (seen : List String) (l : List Row) :
    ((dedupBySerialAux seen l).map Row.serial).Nodup := by
  induction l generalizing seen with
  | nil => exact List.nodup_nil
  | cons r rs ih =>
    unfold dedupBySerialAux
    by_cases h : r.serial ∈ seen
    · simp only [h, if_pos]
      exact ih seen
    · simp only [h, if_neg, not_false_iff, List.map_cons, List.nodup_cons]
      constructor
      · intro hmem
        rcases List.mem_map.mp hmem with ⟨x, hx, hser⟩
        exact dedupAux_not_seen (r.serial :: seen) rs x hx
          (hser ▸ List.mem_cons_self _ _)
      · exact ih (r.serial :: seen)

theorem dedupAux_find? (seen : List String) (l : List Row) (s : String)
    (h : s ∉ seen) :
    (dedupBySerialAux seen l).find? (fun r => r.serial == s) =
      l.find? (fun r => r.serial == s) := by
  induction l generalizing seen with
  | nil => rfl
  | cons r rs ih =>
    unfold dedupBySerialAux
    by_cases hr : r.serial ∈ seen
    · simp only [hr, if_pos]
      have hne : ¬ (r.serial == s) = true := by
        intro hb
        exact h ((eq_of_beq hb) ▸ hr)
      have hskip : List.find? (fun x => x.serial == s) (r :: rs) =
          List.find? (fun x => x.serial == s) rs :=
        List.find?_cons_of_neg rs hne
      rw [ih seen h, hskip]
    · simp only [hr, if_neg, not_false_iff]
      by_cases hs : (r.serial == s) = true
      · have h1 : List.find? (fun x => x.serial == s)
            (r :: dedupBySerialAux (r.serial :: seen) rs) = some r :=
          List.find?_cons_of_pos _ hs
        have h2 : List.find? (fun x => x.serial == s) (r :: rs) = some r :=
          List.find?_cons_of_pos rs hs
        rw [h1, h2]
      · have h1 : List.find? (fun x => x.serial == s)
            (r :: dedupBySerialAux (r.serial :: seen) rs) =
            List.find? (fun x => x.serial == s)
              (dedupBySerialAux (r.serial :: seen) rs) :=
          List.find?_cons_of_neg _ hs
        have h2 : List.find? (fun x => x.serial == s) (r :: rs) =
            List.find? (fun x => x.serial == s) rs :=
          List.find?_cons_of_neg rs hs
        rw [h1, h2]
        refine ih (r.serial :: seen) ?_
        intro hmem
        rcases List.mem_cons.mp hmem with heq | hmem'
        · exact hs (beq_iff_eq.mpr heq.symm)
        · exact h hmem'

theorem dedupAux_nil_of_seen (seen : List String) (l : List Row)
    (h : ∀ r ∈ l, r.serial ∈ seen) : dedupBySerialAux seen l = [] := by
  induction l with
  | nil => rfl
  | cons r rs ih =>
    unfold dedupBySerialAux
    have hr : r.serial ∈ seen := h r (List.mem_cons_self _ _)
    simp only [hr, if_pos]
    exact ih (fun x hx => h x (List.mem_cons_of_mem _ hx))

theorem dedupAux_append_self : ∀ (A : List Row) (seen : List String) (B : List Row),
    ((A.map Row.serial).Nodup) → (∀ r ∈ A, r.serial ∉ seen) →
    (∀ r ∈ B, r.serial ∈ seen ∨ r.serial ∈ A.map Row.serial) →
    dedupBySerialAux seen (A ++ B) = A := by
  intro A
  induction A with
  | nil =>
    intro seen B _ _ hB
    simp only [List.nil_append]
    exact dedupAux_nil_of_seen seen B (fun r hr => by
      rcases hB r hr with hs | hmem
      · exact hs
      · cases hmem)
  | cons r A' ih =>
    intro seen B hA h2 hB
    have hr : r.serial ∉ seen := h2 r (List.mem_cons_self _ _)
    simp only [List.cons_append]
    unfold dedupBySerialAux
    simp only [hr, if_neg, not_false_iff]
    congr 1
    have hA2 : (Row.serial r :: A'.map Row.serial).Nodup := by
      simpa only [List.map_cons] using hA
    have hnd := List.nodup_cons.mp hA2
    refine ih (r.serial :: seen) B hnd.2 ?_ ?_
    · intro x hx hmem
      rcases List.mem_cons.mp hmem with heq | hmem'
      · exact hnd.1 (heq ▸ List.mem_map_of_mem Row.serial hx)
      · exact h2 x (List.mem_cons_of_mem _ hx) hmem'
    · intro x hx
      rcases hB x hx with hs | hmem
      · exact Or.inl (List.mem_cons_of_mem _ hs)
      · rcases List.mem_map.mp hmem with ⟨y, hy, hser⟩
        rcases List.mem_cons.mp hy with rfl | hy'
        · exact Or.inl (hser ▸ List.mem_cons_self _ _)
        · exact Or.inr (hser ▸ List.mem_map_of_mem Row.serial hy')

/-! ### Claim C1 -/

/-- C1 (amended): with no existing table the merge returns the incoming
batch unchanged; otherwise it deduplicates the concatenation of existing
and incoming rows by serial — the result is a sublist of the
concatenation (rows kept unchanged, relative order preserved), its
serials are pairwise distinct, the row kept for each serial is the first
occurrence in existing-then-incoming order, and in particular any serial
present in the existing table keeps its first existing row unchanged.
Merging a table `A` with itself returns `A` provided `A`'s serials are
pairwise distinct (for a table with an internal duplicate serial the
merge also removes that duplicate, see the counterexample); determinism
is inherent in `checkDuplicates` being a function of its arguments. -/
theorem c1_merge_behavior (ex inc A : List Row)
    (hA : ((A.map Row.serial).Nodup)) :
    checkDuplicates none inc = inc
    ∧ checkDuplicates (some ex) inc = dedupBySerial (ex ++ inc)
    ∧ List.Sublist (dedupBySerial (ex ++ inc)) (ex ++ inc)
    ∧ (((dedupBySerial (ex ++ inc)).map Row.serial).Nodup)
    ∧ (∀ s : String, (dedupBySerial (ex ++ inc)).find? (fun r => r.serial == s) =
        (ex ++ inc).find? (fun r => r.serial == s))
    ∧ (∀ s : String, ∀ r : Row, ex.find? (fun x => x.serial == s) = some r →
        (checkDuplicates (some ex) inc).find? (fun x => x.serial == s) = some r)
    ∧ checkDuplicates (some A) A = A := by
  refine ⟨rfl, rfl, dedupAux_sublist [] _, dedupAux_serials_nodup [] _, ?_, ?_, ?_⟩
  · intro s
    exact dedupAux_find? [] _ s (List.not_mem_nil s)
  · intro s r hfound
    have h1 : (checkDuplicates (some ex) inc).find? (fun x => x.serial == s) =
        (ex ++ inc).find? (fun x => x.serial == s) :=
      dedupAux_find? [] _ s (List.not_mem_nil s)
    rw [h1, List.find?_append, hfound, Option.or_some]
  · show dedupBySerial (A ++ A) = A
    exact dedupAux_append_self A [] A hA
      (fun r _ => List.not_mem_nil r.serial)
      (fun r hr => Or.inr (List.mem_map_of_mem Row.serial hr))

/-- C1 counterexample: for the table `A = [c1RowA, c1RowB]`, whose two
rows share the serial "1", `merge(A, A) ≠ A` — the merge also removes
`A`'s internal duplicate, so the claim's unconditional `merge(A, A) == A`
is false on the code. -/
theorem c1_counterexample :
    checkDuplicates (some [c1RowA, c1RowB]) [c1RowA, c1RowB] = [c1RowA]
    ∧ checkDuplicates (some [c1RowA, c1RowB]) [c1RowA, c1RowB] ≠ [c1RowA, c1RowB] := by
  constructor
  · decide
  · decide

/-- C1 witness: the amended theorem applied at the concrete table
`[c1RowA]` (distinct serials), instantiating the existing/incoming
tables with `[c1RowA]` and `[c1RowB]`. -/
theorem c1_witness :
    checkDuplicates none [c1RowB] = [c1RowB]
    ∧ checkDuplicates (some [c1RowA]) [c1RowB] = dedupBySerial ([c1RowA] ++ [c1RowB])
    ∧ checkDuplicates (some [c1RowA]) [c1RowA] = [c1RowA] := by
  have h := c1_merge_behavior [c1RowA] [c1RowB] [c1RowA] (by decide)
  exact ⟨h.1, h.2.1, h.2.2.2.2.2.2⟩

/-! ### Claim C2 -/

/-- C2: tier derivation is total — for every warranty-code input (a
string or a null cell) `map_support_level` equals the spec's 7-rule
precedence cascade (null → NotFound, then the ordered
(predicate, result) list with first match winning, matching
case-insensitively with substring checks anywhere in the string and
prefix checks for base/extended/premium), and it always returns one of
the 8 enum labels. -/
theorem c2_tier_cascade_total :
    ∀ w : Option String,
      map_support_level w = specTier w ∧ map_support_level w ∈ supportLabels := by
  intro w
  cases w with
  | none => exact ⟨rfl, by decide⟩
  | some s =>
    refine ⟨rfl, ?_⟩
    simp only [map_support_level]
    repeat' split
    all_goals decide

/-! ### Claim C10 -/

/-- C10: every label `map_support_level` can return is a key of the
`support_colors` table of `colorize_excel`, so every tier cell receives
a defined color. -/
theorem c10_tier_labels_have_colors :
    ∀ w : Option String,
      (support_colors.lookup (map_support_level w)).isSome = true := by
  intro w
  cases w with
  | none => decide
  | some s =>
    simp only [map_support_level]
    repeat' split
    all_goals decide

/-! ### Claim C3 -/

/-- C3 counterexample: when the previous run's output holds `c3OldRow`
and the new batch holds `c3NewRow` (same serial "77"), the run keeps the
new row — not the old one that a merge against the previously persisted
table (as the claim describes) would keep — because `main` deletes the
target file and writes a header-only table before `check_duplicates`
reads it. -/
theorem c3_counterexample :
    runMergePhase (some [c3OldRow]) [c3NewRow] = [c3NewRow]
    ∧ checkDuplicates (some [c3OldRow]) [c3NewRow] = [c3OldRow]
    ∧ runMergePhase (some [c3OldRow]) [c3NewRow]
        ≠ checkDuplicates (some [c3OldRow]) [c3NewRow] := by
  refine ⟨by decide, by decide, by decide⟩

/-- C3 (amended): each run deletes any previous output file and creates
a fresh header-only table before merging, so the existing table passed
to the deduplicating merge is always the empty one: the final table is
the incoming batch deduplicated by serial, and rows persisted by a
previous run never participate. -/
theorem c3_merge_ignores_previous_output
    (prev : Option (List Row)) (combined : List Row) :
    runMergePhase prev combined = dedupBySerial combined := rfl

/-! ### Claim C6 -/

theorem clean_snL_idem (l : List Char)
    (h : endsWithL ['.', '0', '.', '0'] l = false) :
    clean_snL (clean_snL l) = clean_snL l := by
  cases h1 : endsWithL ['.', '0'] l with
  | false =>
    unfold clean_snL
    rw [h1]
    simp only [Bool.false_eq_true, if_false]
    rw [h1]
    simp
  | true =>
    have hpre : ['0', '.'] <+: l.reverse := by
      have h1' := h1
      unfold endsWithL at h1'
      exact List.isPrefixOf_iff_prefix.mp (by simpa using h1')
    rcases hpre with ⟨t, ht⟩
    have hl : l = t.reverse ++ ['.', '0'] := by
      have h2 := congrArg List.reverse ht
      simpa using h2.symm
    have hlen : l.length - 2 = t.reverse.length := by
      rw [hl]
      simp
    have hclean : clean_snL l = t.reverse := by
      unfold clean_snL
      rw [h1]
      simp only [if_true]
      rw [hlen, hl, List.take_left]
    have hnot : endsWithL ['.', '0'] t.reverse = false := by
      cases h2 : endsWithL ['.', '0'] t.reverse with
      | false => rfl
      | true =>
        exfalso
        have hb : ['0', '.'] <+: t := by
          have h2' := h2
          unfold endsWithL at h2'
          exact List.isPrefixOf_iff_prefix.mp (by simpa using h2')
        rcases hb with ⟨u, hu⟩
        have hrev : l.reverse = ['0', '.', '0', '.'] ++ u := by
          rw [← ht, ← hu]
          rfl
        have hend : endsWithL ['.', '0', '.', '0'] l = true := by
          unfold endsWithL
          show (['.', '0', '.', '0'].reverse.isPrefixOf l.reverse) = true
          rw [hrev]
          exact List.isPrefixOf_iff_prefix.mpr ⟨u, by simp⟩
        rw [hend] at h
        cases h
    rw [hclean]
    unfold clean_snL
    rw [hnot]
    simp

/-- C6 (amended): serial cleaning stringifies the value and strips one
exact trailing ".0" suffix; it is idempotent on every string that does
not end in ".0.0" (on a string ending in ".0.0" a second application
strips a second ".0", see the counterexample).  The three concrete
cleaning facts of the claim hold as stated. -/
theorem c6_clean_sn (x : String)
    (h : endsWithL ['.', '0', '.', '0'] x.toList = false) :
    clean_sn (clean_sn x) = clean_sn x
    ∧ clean_sn "12345.0" = "12345"
    ∧ clean_sn "12345" = "12345"
    ∧ clean_sn "ABC.0" = "ABC" := by
  refine ⟨?_, by decide, by decide, by decide⟩
  show String.mk (clean_snL (String.mk (clean_snL x.toList)).toList) =
    String.mk (clean_snL x.toList)
  have hml : (String.mk (clean_snL x.toList)).toList = clean_snL x.toList := rfl
  rw [hml, clean_snL_idem x.toList h]

/-- C6 counterexample: `clean_sn` is not idempotent on "1.0.0" — one
application gives "1.0", a second gives "1". -/
theorem c6_counterexample :
    clean_sn "1.0.0" = "1.0"
    ∧ clean_sn (clean_sn "1.0.0") = "1"
    ∧ clean_sn (clean_sn "1.0.0") ≠ clean_sn "1.0.0" := by
  refine ⟨by decide, by decide, by decide⟩

/-- C6 witness: the amended idempotence applied at the concrete string
"12345.0" (which does not end in ".0.0"). -/
theorem c6_witness :
    clean_sn (clean_sn "12345.0") = clean_sn "12345.0" :=
  (c6_clean_sn "12345.0" (by decide)).1

/-! ### Claims C5 and C7 -/

theorem tryTermAt_eq (l : List Char) :
    tryTermAt l =
      if isPatternAt l 0 = true then some (l.takeWhile Char.isDigit) else none := by
  unfold tryTermAt isPatternAt runAt
  by_cases h1 : ((l.drop 0).takeWhile Char.isDigit).isEmpty = true
  · simp [h1, List.drop_zero] at h1 ⊢
    simp [h1]
  · by_cases h2 :
      ((l.drop 0).drop ((l.drop 0).takeWhile Char.isDigit).length).head? = some 'Y'
    · simp [List.drop_zero] at h1 h2 ⊢
      simp [h1, h2]
    · simp [List.drop_zero] at h1 h2 ⊢
      simp [h1, h2]

theorem isPatternAt_succ (c : Char) (rest : List Char) (i : Nat) :
    isPatternAt (c :: rest) (i + 1) = isPatternAt rest i := rfl

theorem runAt_succ (c : Char) (rest : List Char) (i : Nat) :
    runAt (c :: rest) (i + 1) = runAt rest i := rfl

/-- The leftmost-match regex scan agrees with the spec-side description
"the digit run at the first position where a digit run immediately
precedes 'Y'". -/
theorem extractTermL_eq_specExtract : ∀ l : List Char, extractTermL l = specExtract l := by
  intro l
  induction l with
  | nil => rfl
  | cons c rest ih =>
    unfold specExtract
    rw [List.length_cons, List.range_succ_eq_map]
    cases h0 : isPatternAt (c :: rest) 0 with
    | true =>
      have hfind :
          (0 :: (List.range rest.length).map Nat.succ).find? (isPatternAt (c :: rest)) =
            some 0 :=
        List.find?_cons_of_pos _ h0
      rw [hfind]
      unfold extractTermL
      rw [tryTermAt_eq, if_pos h0]
      rfl
    | false =>
      have hfind :
          (0 :: (List.range rest.length).map Nat.succ).find? (isPatternAt (c :: rest)) =
            ((List.range rest.length).map Nat.succ).find? (isPatternAt (c :: rest)) :=
        List.find?_cons_of_neg _ (by simp [h0])
      rw [hfind, List.find?_map]
      have hcomp : (isPatternAt (c :: rest)) ∘ Nat.succ = isPatternAt rest :=
        funext fun i => isPatternAt_succ c rest i
      rw [hcomp]
      unfold extractTermL
      rw [tryTermAt_eq, if_neg (by simp [h0])]
      rw [ih]
      unfold specExtract
      cases hf : (List.range rest.length).find? (isPatternAt rest) with
      | none => simp [hf]
      | some i => simp [hf, runAt_succ]

/-- C5: term extraction — null gives an empty term cell; the three
concrete examples of the spec hold; and on every string the extraction
agrees with the spec-side description: the first (leftmost) maximal run
of decimal digits immediately preceding the literal character 'Y', with
a NaN (empty-cell) result when no such pattern exists. -/
theorem c5_extract_term :
    (∀ s : String, extract_term (some s) = (specExtract s.toList).map String.mk)
    ∧ extract_term none = none
    ∧ termCell (extract_term none) = ""
    ∧ termCell (extract_term (some "Extended3Y")) = "3"
    ∧ termCell (extract_term (some "Base_Невозврат")) = ""
    ∧ termCell (extract_term (some "Premium5Y_Невозврат")) = "5" := by
  refine ⟨?_, rfl, rfl, by decide, by decide, by decide⟩
  intro s
  simp only [extract_term]
  rw [extractTermL_eq_specExtract]

/-! ### Claim C7 -/

/-- C7: coverage-start normalization never propagates an error — for
every cell (null or any string), either the parse fails and the output
start field is the empty string, or the parse succeeds and the output is
the date formatted as `YYYY-MM-DD` (ten characters, hence non-empty). -/
theorem c7_start_normalization_total (x : Option String) :
    (x.bind parseDate = none ∧ format_start x = "")
    ∨ (∃ d, x.bind parseDate = some d ∧ format_start x = formatDate d
        ∧ (format_start x).length = 10) := by
  cases x with
  | none => exact Or.inl ⟨rfl, rfl⟩
  | some s =>
    cases hp : parseDate s with
    | none =>
      refine Or.inl ⟨by simp [hp], ?_⟩
      simp [format_start, hp]
    | some d =>
      have hf : format_start (some s) = formatDate d := by
        simp [format_start, hp]
      refine Or.inr ⟨d, by simp [hp], hf, ?_⟩
      rw [hf]
      rfl

/-! ### Claim C4 -/

theorem formatDate_ne_empty (d : Date) : formatDate d ≠ "" := by
  intro hcon
  have hlen : (formatDate d).length = 10 := rfl
  rw [hcon] at hlen
  exact absurd hlen (by decide)

/-- C4 (amended): the end date is the empty string exactly when the
coverage start fails to parse, the term is missing or not
integer-parseable, or the computed end date falls outside the
representable pandas `Timestamp` range (the year offset raises
`OutOfBoundsDatetime`, caught into `""`); otherwise it is the parsed
start plus the term in calendar years (month kept, day clamped to the
target month), formatted `YYYY-MM-DD`; in particular start "2023-02-28"
with term "1" yields "2024-02-28".  The function is total — every case
returns a string. -/
theorem c4_end_date (startStr : String) (term : Option String) :
    (calc_end_date startStr term = "" ↔
      (parseDate startStr = none ∨ parseTermNat term = none
        ∨ ∃ st y, parseDate startStr = some st ∧ parseTermNat term = some y
            ∧ inBounds (addYears st y) = false))
    ∧ (∀ st y, parseDate startStr = some st → parseTermNat term = some y →
        inBounds (addYears st y) = true →
        calc_end_date startStr term = formatDate (addYears st y))
    ∧ calc_end_date "2023-02-28" (some "1") = "2024-02-28" := by
  refine ⟨?_, ?_, by decide⟩
  · cases hp : parseDate startStr with
    | none =>
      have hval : calc_end_date startStr term = "" := by
        unfold calc_end_date
        rw [hp]
      simp [hval, hp]
    | some st =>
      cases ht : parseTermNat term with
      | none =>
        have hval : calc_end_date startStr term = "" := by
          unfold calc_end_date
          rw [hp, ht]
        simp [hval, hp, ht]
      | some y =>
        cases hb : inBounds (addYears st y) with
        | true =>
          have hval : calc_end_date startStr term = formatDate (addYears st y) := by
            unfold calc_end_date
            rw [hp, ht]
            simp [hb]
          rw [hval]
          constructor
          · intro hcon
            exact absurd hcon (formatDate_ne_empty _)
          · rintro (hc | hc | ⟨st', y', hst', hy', hbf⟩)
            · cases hc
            · cases hc
            · injection hst' with hst''
              injection hy' with hy''
              rw [← hst'', ← hy''] at hbf
              rw [hb] at hbf
              cases hbf
        | false =>
          have hval : calc_end_date startStr term = "" := by
            unfold calc_end_date
            rw [hp, ht]
            simp [hb]
          simp only [hval]
          constructor
          · intro _
            exact Or.inr (Or.inr ⟨st, y, rfl, rfl, hb⟩)
          · intro _
            trivial
  · intro st y hst hy hbt
    unfold calc_end_date
    rw [hst, hy]
    simp [hbt]

/-- C4 counterexample: with start "2023-01-01" and term "9999" both
parsing successfully, the end date is nevertheless the empty string
(the year-12022 timestamp is out of bounds and the addition raises into
the handler), refuting the claim's "empty exactly when start failed or
term unparseable". -/
theorem c4_counterexample :
    calc_end_date "2023-01-01" (some "9999") = ""
    ∧ parseDate "2023-01-01" ≠ none
    ∧ parseTermNat (some "9999") ≠ none := by
  refine ⟨by decide, by decide, by decide⟩

/-- C4 witness: the amended theorem applied at start "2023-02-28" and
term "1". -/
theorem c4_witness :
    calc_end_date "2023-02-28" (some "1") = formatDate (addYears ⟨2023, 2, 28⟩ 1) :=
  (c4_end_date "2023-02-28" (some "1")).2.1 ⟨2023, 2, 28⟩ 1
    (by decide) (by decide) (by decide)

/-! ### Claim C9 -/

/-- C9: the summarizer applied to an empty canonical table does not
raise — it returns normally, with zero record and serial counts, NaN
(undefined) mean, NaN min/max dates and empty distribution sheets. -/
theorem c9_empty_table_analytics :
    generateAnalytics [] = Except.ok ⟨0, 0, none, none, none, [], [], []⟩ := rfl

/-! ### Rounding and percentage-sum lemmas (claim C8) -/

theorem floorQ_eq (x : ℚ) : floorQ x = ⌊x⌋ := (Rat.floor_def).symm

theorem roundQ_eq (x : ℚ) : roundQ x = round x := by
  unfold roundQ
  rw [floorQ_eq, round_eq]

theorem round1_close (x : ℚ) : |round1 x - x| ≤ 1 / 20 := by
  unfold round1
  rw [roundQ_eq]
  have h := abs_sub_round (10 * x)
  have heq : ((round (10 * x) : ℤ) : ℚ) / 10 - x = -((10 * x - ((round (10 * x) : ℤ) : ℚ)) / 10) := by
    ring
  rw [heq, abs_neg, abs_div]
  have h10 : |(10 : ℚ)| = 10 := by norm_num
  rw [h10]
  have hstep : |10 * x - ((round (10 * x) : ℤ) : ℚ)| / 10 ≤ (1 / 2) / 10 :=
    div_le_div_of_nonneg_right h (by norm_num) |>.trans_eq rfl
  calc |10 * x - ((round (10 * x) : ℤ) : ℚ)| / 10
      ≤ (1 / 2) / 10 := hstep
    _ = 1 / 20 := by norm_num

theorem sum_round1_close (l : List ℚ) :
    |(l.map round1).sum - l.sum| ≤ (l.length : ℚ) / 20 := by
  induction l with
  | nil => simp
  | cons x xs ih =>
    simp only [List.map_cons, List.sum_cons, List.length_cons]
    have h1 := round1_close x
    calc |round1 x + (xs.map round1).sum - (x + xs.sum)|
        = |(round1 x - x) + ((xs.map round1).sum - xs.sum)| := by ring_nf
      _ ≤ |round1 x - x| + |(xs.map round1).sum - xs.sum| := abs_add _ _
      _ ≤ 1 / 20 + (xs.length : ℚ) / 20 := add_le_add h1 ih
      _ = ((xs.length + 1 : ℕ) : ℚ) / 20 := by push_cast; ring

theorem distPct_unrounded {α : Type} [DecidableEq α] (n : Nat) (vals : List α) :
    ((vals.dedup).map (fun v => pct n (vals.count v))).sum
      = (vals.length : ℚ) * 100 / (n : ℚ) := by
  have h1 : (vals.dedup).map (fun v => pct n (vals.count v))
      = (vals.dedup).map (fun v => ((vals.count v : ℕ) : ℚ) * (100 / (n : ℚ))) := by
    apply List.map_congr_left
    intro v _
    unfold pct
    ring
  rw [h1, List.sum_map_mul_right]
  have h2 : (vals.dedup.map (fun v => ((vals.count v : ℕ) : ℚ))).sum
      = ((vals.length : ℕ) : ℚ) := by
    have h3 : vals.dedup.map (fun v => ((vals.count v : ℕ) : ℚ))
        = (vals.dedup.map (fun v => vals.count v)).map (fun c : ℕ => (c : ℚ)) :=
      (List.map_map _ _ _).symm
    rw [h3, ← Nat.cast_list_sum, List.sum_map_count_dedup_eq_length]
  rw [h2]
  ring

theorem distPctSum_close {α : Type} [DecidableEq α] (n : Nat) (vals : List α) :
    |distPctSum (distRows n vals) - (vals.length : ℚ) * 100 / (n : ℚ)|
      ≤ (vals.dedup.length : ℚ) / 20 := by
  unfold distPctSum distRows
  rw [List.map_map]
  have h1 : (vals.dedup).map ((fun t : α × Nat × ℚ => t.2.2)
        ∘ (fun v => (v, vals.count v, round1 (pct n (vals.count v)))))
      = ((vals.dedup).map (fun v => pct n (vals.count v))).map round1 := by
    rw [List.map_map]
    rfl
  rw [h1, ← distPct_unrounded n vals]
  have h2 := sum_round1_close ((vals.dedup).map (fun v => pct n (vals.count v)))
  rw [List.length_map] at h2
  exact h2

theorem length_filterMap_of_isSome {α β : Type} (f : α → Option β) :
    ∀ l : List α, (∀ a ∈ l, (f a).isSome = true) →
      (l.filterMap f).length = l.length := by
  intro l
  induction l with
  | nil => intro _; rfl
  | cons a as ih =>
    intro h
    have ha := h a (List.mem_cons_self _ _)
    rcases Option.isSome_iff_exists.mp ha with ⟨b, hb⟩
    rw [List.filterMap_cons, hb]
    show (b :: as.filterMap f).length = as.length + 1
    rw [List.length_cons, ih (fun x hx => h x (List.mem_cons_of_mem _ hx))]

/-! ### Claim C8 -/

/-- C8 (amended): for every non-empty canonical table the
tier-distribution percentages sum to 100.0 up to rounding error (within
half a rounding unit, 0.05, per category).  The term and end-year
distributions exclude rows with a missing term / empty coverage-end
from the counts while still dividing by the total row count, so their
percentages sum to 100.0 up to rounding error exactly when no row is
excluded — i.e. when every row has a term (digits-before-Y matched) and
every row has a parseable coverage end. -/
theorem c8_percentage_sums (rows : List Row) (hne : rows ≠ []) :
    pctsSumTo100 rows.length (tierVals rows)
    ∧ ((∀ r ∈ rows, (r.term).isSome = true) →
        pctsSumTo100 rows.length (termVals rows))
    ∧ ((∀ r ∈ rows, (endYear r).isSome = true) →
        pctsSumTo100 rows.length (yearVals rows)) := by
  have hpos : 0 < rows.length := List.length_pos.mpr hne
  have hn : ((rows.length : ℚ)) ≠ 0 := by
    have hq : (0 : ℚ) < (rows.length : ℚ) := by exact_mod_cast hpos
    exact ne_of_gt hq
  have key : ∀ vals : List String, vals.length = rows.length →
      pctsSumTo100 rows.length vals := by
    intro vals hlen
    unfold pctsSumTo100
    have h := distPctSum_close rows.length vals
    rw [hlen] at h
    have h100 : ((rows.length : ℚ)) * 100 / ((rows.length : ℚ)) = 100 := by
      field_simp
    rw [h100] at h
    exact h
  have keyN : ∀ vals : List Nat, vals.length = rows.length →
      pctsSumTo100 rows.length vals := by
    intro vals hlen
    unfold pctsSumTo100
    have h := distPctSum_close rows.length vals
    rw [hlen] at h
    have h100 : ((rows.length : ℚ)) * 100 / ((rows.length : ℚ)) = 100 := by
      field_simp
    rw [h100] at h
    exact h
  refine ⟨?_, ?_, ?_⟩
  · exact key (tierVals rows) (List.length_map _ _)
  · intro hall
    exact key (termVals rows)
      (length_filterMap_of_isSome Row.term rows hall)
  · intro hall
    exact keyN (yearVals rows)
      (length_filterMap_of_isSome endYear rows hall)

/-- C8 counterexample: for the two-row table `[c8Row, c8RowM]`, the term
distribution counts only the one row with a term but divides by the
total row count 2, so its only percentage is 50.0 and the claimed
sum-to-100 property fails. -/
theorem c8_counterexample :
    ¬ pctsSumTo100 ([c8Row, c8RowM].length) (termVals [c8Row, c8RowM]) := by
  have h1 : termVals [c8Row, c8RowM] = ["1"] := by decide
  rw [h1]
  show ¬ pctsSumTo100 2 ["1"]
  unfold pctsSumTo100 distPctSum distRows
  have hd : (["1"] : List String).dedup = ["1"] := by decide
  have hc : (["1"] : List String).count "1" = 1 := by decide
  rw [hd]
  simp only [List.map_cons, List.map_nil, List.sum_cons, List.sum_nil, hc,
    List.length_cons, List.length_nil]
  have hpct : pct 2 1 = 50 := by
    unfold pct
    norm_num
  rw [hpct]
  have hr : round1 50 = 50 := by
    unfold round1
    rw [roundQ_eq]
    have h500 : (10 : ℚ) * 50 = ((500 : ℤ) : ℚ) := by norm_num
    rw [h500, round_intCast]
    norm_num
  rw [hr]
  norm_num

/-- C8 witness: the amended theorem applied at the one-row table
`[c8Row]`, whose row has both a term and a parseable coverage end. -/
theorem c8_witness :
    pctsSumTo100 ([c8Row].length) (tierVals [c8Row])
    ∧ pctsSumTo100 ([c8Row].length) (termVals [c8Row])
    ∧ pctsSumTo100 ([c8Row].length) (yearVals [c8Row]) := by
  have h := c8_percentage_sums [c8Row] (by decide)
  exact ⟨h.1, h.2.1 (by decide), h.2.2 (by decide)⟩
